import Mathlib

/-!
# Verification of the EV datalogger ring-buffer pipeline (`src/logger.c`)

A shallow embedding of the data structures and operations of `logger.c`:
the `RingBuffer` with its `rb_getused_m` / `rb_getfree_m` macros and the
`ringbuf_write` / `ringbuf_read` operations, the supervisor's
open-on-start and close-on-stop steps of `sd_setup`, and the debounced
button handler `PORT1_ISR`.

Bytes are modelled as `Nat` (byte-for-byte equality never needs the
`< 256` bound).  The C index fields are `uint16_t`; all index arithmetic
in the source keeps values below `2 * len ≤ 2^16` (the buffer length
`SD_RINGBUF_LEN` is a power of two that fits the MSP430's RAM), so plain
`Nat` arithmetic written to avoid truncation (`head + len - tail` for the
C `head - tail + len`) is exact.  The tick counter of the debounce logic
is `uint32_t` and its subtraction is modelled with an explicit `% 2^32`.
-/

/-- The C `RingBuffer` struct: `buffer` is the backing byte array,
`head` the write index, `tail` the read index, `len` the capacity,
`mask = len - 1` (set up in `sd_setup`), `overflow` the sticky flag. -/
structure RingBuffer where
  buffer : List Nat
  head : Nat
  tail : Nat
  len : Nat
  mask : Nat
  overflow : Bool
deriving DecidableEq

/-- The macro `rb_getused_m` of logger.c:
`(b->tail==b->head) ? 0 : (b->head - b->tail + b->len) % b->len`.
For in-range `uint16_t` fields (`head, tail < len ≤ 2^15`) the C unsigned
arithmetic equals this `Nat` computation. -/
def rb_getused_m (b : RingBuffer) : Nat :=
  if b.tail = b.head then 0 else (b.head + b.len - b.tail) % b.len

/-- The macro `rb_getfree_m` of logger.c:
`(b->tail==b->head) ? b->len : (b->tail - b->head + b->len) % b->len`. -/
def rb_getfree_m (b : RingBuffer) : Nat :=
  if b.tail = b.head then b.len else (b.tail + b.len - b.head) % b.len

/-- `memcpy(dst + off, src, |src|)` on the list-modelled byte array:
write the bytes of `src` at positions `off, off+1, ...` of `dst`
(`List.set` ignores out-of-range positions, which cannot occur in the
in-range states the theorems quantify over). -/
def memcpyList (dst : List Nat) (off : Nat) (src : List Nat) : List Nat :=
  match src with
  | [] => dst
  | byte :: rest => memcpyList (dst.set off byte) (off + 1) rest

/-- `n` consecutive bytes of `l` starting at `off` — the source range of a
`memcpy` out of the buffer. -/
def listSlice (l : List Nat) (off n : Nat) : List Nat :=
  (l.drop off).take n

/-- `ringbuf_write(buf, data, n)` of logger.c, returning the C return code
together with the updated buffer state.  Mirrors the source: reject
`n >= buf->len`; on `rb_getfree_m(buf) < n` set `overflow` and fail; else
copy in one block when `head + n < len`, otherwise in two blocks around
the wraparound, advancing `head` with `& mask` after each copy. -/
def ringbuf_write (buf : RingBuffer) (data : List Nat) (n : Nat) :
    Nat × RingBuffer :=
  if buf.len ≤ n then (1, buf)
  else if rb_getfree_m buf < n then (1, { buf with overflow := true })
  else if buf.head + n < buf.len then
    (0, { buf with buffer := memcpyList buf.buffer buf.head (data.take n),
                   head := (buf.head + n) &&& buf.mask })
  else
    let rem := buf.len - buf.head
    let buf1 := { buf with
                    buffer := memcpyList buf.buffer buf.head (data.take rem),
                    head := (buf.head + rem) &&& buf.mask }
    (0, { buf1 with
            buffer := memcpyList buf1.buffer buf1.head
                        ((data.drop rem).take (n - rem)),
            head := (buf1.head + (n - rem)) &&& buf1.mask })

/-- `ringbuf_read(buf, read_buffer, n)` of logger.c, returning the C return
code, the bytes copied into `read_buffer`, and the updated state.  Mirrors
the source: reject `n >= buf->len`; clamp `n` to `rb_getused_m(buf)`; copy
in one block when `tail + n < len`, otherwise in two blocks around the
wraparound, advancing `tail` with `& mask` after each copy. -/
def ringbuf_read (buf : RingBuffer) (n0 : Nat) :
    Nat × List Nat × RingBuffer :=
  if buf.len ≤ n0 then (1, [], buf)
  else
    let n := if rb_getused_m buf < n0 then rb_getused_m buf else n0
    if buf.tail + n < buf.len then
      (0, listSlice buf.buffer buf.tail n,
          { buf with tail := (buf.tail + n) &&& buf.mask })
    else
      let rem := buf.len - buf.tail
      let buf1 := { buf with tail := (buf.tail + rem) &&& buf.mask }
      (0, listSlice buf.buffer buf.tail rem ++
            listSlice buf1.buffer buf1.tail (n - rem),
          { buf1 with tail := (buf1.tail + (n - rem)) &&& buf1.mask })

/-- The ring-buffer initialisation at the top of `sd_setup`:
`head = tail = overflow = 0`, `len = SD_RINGBUF_LEN`, `mask = len - 1`;
the backing array is a zero-initialised `static char ringbuf[len]`. -/
def rbInit (len : Nat) : RingBuffer :=
  { buffer := List.replicate len 0, head := 0, tail := 0,
    len := len, mask := len - 1, overflow := false }

/-- The bytes currently queued in the buffer, in FIFO order: the
`rb_getused_m` bytes starting at `tail`, wrapping past the end. -/
def rb_contents (b : RingBuffer) : List Nat :=
  (b.buffer.drop b.tail ++ b.buffer.take b.tail).take (rb_getused_m b)

/-- In-range state: indices below the capacity, the `mask`/`len`
relationship established by `sd_setup`, a power-of-two capacity, and a
backing array of exactly `len` bytes. -/
def rbWF (b : RingBuffer) : Prop :=
  b.head < b.len ∧ b.tail < b.len ∧ b.mask = b.len - 1 ∧
    (∃ k : Nat, b.len = 2 ^ k) ∧ b.buffer.length = b.len

/-! ## The operations that touch the buffer, and reachability

`RBOp.write` is the producer's `ringbuf_write` (the timer ISR),
`RBOp.read` the drain's `ringbuf_read` (via `sd_write`), and
`RBOp.clearOverflow` the supervisor's `sdbuf->overflow = 0` in the
open-on-start step of `sd_setup`. -/
inductive RBOp where
  | write (data : List Nat) (n : Nat)
  | read (n : Nat)
  | clearOverflow
deriving DecidableEq

def applyOp (b : RingBuffer) : RBOp → RingBuffer
  | RBOp.write data n => (ringbuf_write b data n).2
  | RBOp.read n => (ringbuf_read b n).2.2
  | RBOp.clearOverflow => { b with overflow := false }

/-- States reachable from the `sd_setup` initialisation by any sequence
of buffer operations. -/
inductive Reachable (len : Nat) : RingBuffer → Prop where
  | init : Reachable len (rbInit len)
  | step (b : RingBuffer) (op : RBOp) :
      Reachable len b → Reachable len (applyOp b op)

/-! ## Supervisor steps of `sd_setup` and the debounced button handler -/

/-- The supervisor-visible state of `sd_setup`'s loop: the
`logger_running` and `file_open` flags of logger.c together with the
shared `sdbuf` ring buffer. -/
structure LoggerState where
  logger_running : Bool
  file_open : Bool
  sdbuf : RingBuffer
deriving DecidableEq

/-- The open-on-start step of `sd_setup` (the `logger_running && !file_open`
branch): the data file is opened, retrying until the external `f_open`
succeeds (the retries do not touch this state); then
`sdbuf->overflow = 0` and `file_open = 1`.  Modelled at the point where
`f_open` has succeeded. -/
def openStep (s : LoggerState) : LoggerState :=
  if s.logger_running && !s.file_open then
    { s with sdbuf := { s.sdbuf with overflow := false }, file_open := true }
  else s

/-- One storage-driver call issued by the close-on-stop step. -/
inductive SDEvent where
  | fwrite (n : Nat)
  | fsync
  | fclose (ok : Bool)
deriving DecidableEq

/-- The close-on-stop step of `sd_setup` (the `!logger_running && file_open`
branch): `sd_write(sdbuf, writebuf, &fil, rb_getused_m(sdbuf))` — which
drains via `ringbuf_read` and then calls `f_write` with the same count —
then `f_sync`, then `f_close` repeated until it succeeds, and only then
`file_open = 0`.  The oracle `k` is the number of times the external
`f_close` fails before succeeding; the returned list is the sequence of
storage-driver calls issued. -/
def closeStep (s : LoggerState) (k : Nat) : LoggerState × List SDEvent :=
  if !s.logger_running && s.file_open then
    let n := rb_getused_m s.sdbuf
    let rb1 := (ringbuf_read s.sdbuf n).2.2
    ({ s with sdbuf := rb1, file_open := false },
      SDEvent.fwrite n :: SDEvent.fsync ::
        (List.replicate k (SDEvent.fclose false) ++ [SDEvent.fclose true]))
  else (s, [])

/-- The debounce state of `PORT1_ISR`: `time` is the `static` tick of the
last accepted toggle, `running` the `logger_running` flag toggled via
`logger_enable` / `logger_disable`. -/
structure DebounceState where
  time : Nat
  running : Bool
deriving DecidableEq

/-- `PORT1_ISR` of logger.c on a button edge at monotonic tick `t`:
`if((P1IV & P1IV_P1IFG7) && (clock_time() - time) > 250)` — `edge` models
the `P1IV & P1IV_P1IFG7` test and the `uint32_t` subtraction carries its
explicit `% 2^32`.  On acceptance the toggle time is recorded and
`running` flipped. -/
def port1_isr (s : DebounceState) (t : Nat) (edge : Bool) : DebounceState :=
  if edge ∧ 250 < (t + 4294967296 - s.time) % 4294967296 then
    { time := t, running := !s.running }
  else s


/-! ## Branch characterisations of `ringbuf_write` and `ringbuf_read` -/

theorem ringbuf_write_reject (b : RingBuffer) (data : List Nat) (n : Nat)
    (h : b.len ≤ n) : ringbuf_write b data n = (1, b) := by
  simp [ringbuf_write, h]

theorem ringbuf_write_full (b : RingBuffer) (data : List Nat) (n : Nat)
    (h1 : n < b.len) (h2 : rb_getfree_m b < n) :
    ringbuf_write b data n = (1, { b with overflow := true }) := by
  simp [ringbuf_write, Nat.not_le_of_lt h1, h2]

theorem ringbuf_write_nowrap (b : RingBuffer) (data : List Nat) (n : Nat)
    (h1 : n < b.len) (h2 : ¬ rb_getfree_m b < n) (h3 : b.head + n < b.len) :
    ringbuf_write b data n =
      (0, { b with buffer := memcpyList b.buffer b.head (data.take n),
                   head := (b.head + n) &&& b.mask }) := by
  simp [ringbuf_write, Nat.not_le_of_lt h1, h2, h3]

theorem ringbuf_write_wrap (b : RingBuffer) (data : List Nat) (n : Nat)
    (h1 : n < b.len) (h2 : ¬ rb_getfree_m b < n) (h3 : ¬ b.head + n < b.len) :
    ringbuf_write b data n =
      (0, { b with
              buffer := memcpyList
                          (memcpyList b.buffer b.head
                            (data.take (b.len - b.head)))
                          ((b.head + (b.len - b.head)) &&& b.mask)
                          ((data.drop (b.len - b.head)).take
                            (n - (b.len - b.head))),
              head := (((b.head + (b.len - b.head)) &&& b.mask)
                        + (n - (b.len - b.head))) &&& b.mask }) := by
  simp [ringbuf_write, Nat.not_le_of_lt h1, h2, h3]

theorem ringbuf_read_reject (b : RingBuffer) (n0 : Nat)
    (h : b.len ≤ n0) : ringbuf_read b n0 = (1, [], b) := by
  simp [ringbuf_read, h]

theorem ringbuf_read_nowrap (b : RingBuffer) (n0 n : Nat)
    (hn : n = if rb_getused_m b < n0 then rb_getused_m b else n0)
    (h1 : n0 < b.len) (h2 : b.tail + n < b.len) :
    ringbuf_read b n0 =
      (0, listSlice b.buffer b.tail n,
          { b with tail := (b.tail + n) &&& b.mask }) := by
  subst hn
  simp [ringbuf_read, Nat.not_le_of_lt h1, h2]

theorem ringbuf_read_wrap (b : RingBuffer) (n0 n : Nat)
    (hn : n = if rb_getused_m b < n0 then rb_getused_m b else n0)
    (h1 : n0 < b.len) (h2 : ¬ b.tail + n < b.len) :
    ringbuf_read b n0 =
      (0, listSlice b.buffer b.tail (b.len - b.tail) ++
            listSlice b.buffer ((b.tail + (b.len - b.tail)) &&& b.mask)
              (n - (b.len - b.tail)),
          { b with tail := (((b.tail + (b.len - b.tail)) &&& b.mask)
                             + (n - (b.len - b.tail))) &&& b.mask }) := by
  subst hn
  simp [ringbuf_read, Nat.not_le_of_lt h1, h2]

/-! ## Arithmetic facts about the occupancy and free-space macros -/

theorem mask_and_eq_mod (b : RingBuffer) (hm : b.mask = b.len - 1)
    (hp : ∃ k : Nat, b.len = 2 ^ k) (x : Nat) : x &&& b.mask = x % b.len := by
  obtain ⟨k, hk⟩ := hp
  rw [hm, hk]
  exact Nat.and_pow_two_sub_one_eq_mod x k

theorem rb_used_lt_len (b : RingBuffer) (hl : 0 < b.len) :
    rb_getused_m b < b.len := by
  unfold rb_getused_m
  by_cases he : b.tail = b.head
  · simp [he, hl]
  · simp only [if_neg he]
    exact Nat.mod_lt _ hl

theorem rb_used_add_free (b : RingBuffer) (hh : b.head < b.len)
    (ht : b.tail < b.len) : rb_getused_m b + rb_getfree_m b = b.len := by
  unfold rb_getused_m rb_getfree_m
  by_cases he : b.tail = b.head
  · simp [he]
  · simp only [if_neg he]
    rcases Nat.lt_or_ge b.head b.tail with hlt | hge
    · have h2 : b.tail + b.len - b.head = (b.tail - b.head) + b.len := by omega
      rw [Nat.mod_eq_of_lt (by omega), h2, Nat.add_mod_right,
        Nat.mod_eq_of_lt (by omega)]
      omega
    · have hne : b.tail < b.head := by omega
      have h2 : b.head + b.len - b.tail = (b.head - b.tail) + b.len := by omega
      rw [h2, Nat.add_mod_right, Nat.mod_eq_of_lt (by omega),
        Nat.mod_eq_of_lt (by omega)]
      omega

theorem listSlice_length (l : List Nat) (off n : Nat)
    (h : off + n ≤ l.length) : (listSlice l off n).length = n := by
  simp only [listSlice, List.length_take, List.length_drop]
  omega

/-- Master lemma for `ringbuf_read` on a request below the capacity: it
succeeds, copies out exactly `min n (used)` bytes and advances `tail` by
that amount modulo the capacity, leaving every other field unchanged. -/
theorem ringbuf_read_spec (b : RingBuffer) (hwf : rbWF b) (n0 : Nat)
    (h1 : n0 < b.len) :
    (ringbuf_read b n0).1 = 0 ∧
    (ringbuf_read b n0).2.1.length
        = (if rb_getused_m b < n0 then rb_getused_m b else n0) ∧
    (ringbuf_read b n0).2.2 =
      { b with tail := (b.tail +
          (if rb_getused_m b < n0 then rb_getused_m b else n0)) % b.len } := by
  obtain ⟨hh, ht, hm, hp, hb⟩ := hwf
  have hu : rb_getused_m b < b.len := rb_used_lt_len b (by omega)
  set n := if rb_getused_m b < n0 then rb_getused_m b else n0 with hn
  have hnlt : n < b.len := by rw [hn]; split <;> omega
  by_cases hw : b.tail + n < b.len
  · rw [ringbuf_read_nowrap b n0 n hn h1 hw]
    refine ⟨rfl, listSlice_length _ _ _ (by omega), ?_⟩
    rw [mask_and_eq_mod b hm hp]
  · rw [ringbuf_read_wrap b n0 n hn h1 hw]
    have ht1 : (b.tail + (b.len - b.tail)) &&& b.mask = 0 := by
      rw [mask_and_eq_mod b hm hp, show b.tail + (b.len - b.tail) = b.len by
        omega, Nat.mod_self]
    refine ⟨rfl, ?_, ?_⟩
    · rw [List.length_append, ht1, listSlice_length _ _ _ (by omega),
        listSlice_length _ _ _ (by omega)]
      omega
    · rw [ht1, mask_and_eq_mod b hm hp]
      have htail : (0 + (n - (b.len - b.tail))) % b.len
          = (b.tail + n) % b.len := by
        rw [Nat.zero_add, Nat.mod_eq_of_lt (by omega),
          Nat.mod_eq_sub_mod (by omega), Nat.mod_eq_of_lt (by omega)]
        omega
      rw [htail]

/-- Fields of the state after `ringbuf_write`: `len`, `mask`, `tail` and
the backing-array length never change, and the new `head` is either the
old one or at most `mask`. -/
theorem ringbuf_write_fields (b : RingBuffer) (data : List Nat) (n : Nat) :
    ((ringbuf_write b data n).2).len = b.len ∧
    ((ringbuf_write b data n).2).mask = b.mask ∧
    ((ringbuf_write b data n).2).tail = b.tail ∧
    (((ringbuf_write b data n).2).head = b.head ∨
      ((ringbuf_write b data n).2).head ≤ b.mask) := by
  by_cases h1 : b.len ≤ n
  · rw [ringbuf_write_reject b data n h1]
    exact ⟨rfl, rfl, rfl, Or.inl rfl⟩
  · by_cases h2 : rb_getfree_m b < n
    · rw [ringbuf_write_full b data n (by omega) h2]
      exact ⟨rfl, rfl, rfl, Or.inl rfl⟩
    · by_cases h3 : b.head + n < b.len
      · rw [ringbuf_write_nowrap b data n (by omega) h2 h3]
        exact ⟨rfl, rfl, rfl, Or.inr Nat.and_le_right⟩
      · rw [ringbuf_write_wrap b data n (by omega) h2 h3]
        exact ⟨rfl, rfl, rfl, Or.inr Nat.and_le_right⟩

/-- Fields of the state after `ringbuf_read`: `len`, `mask`, `head` and
`overflow` never change, and the new `tail` is either the old one or at
most `mask`. -/
theorem ringbuf_read_fields (b : RingBuffer) (n0 : Nat) :
    ((ringbuf_read b n0).2.2).len = b.len ∧
    ((ringbuf_read b n0).2.2).mask = b.mask ∧
    ((ringbuf_read b n0).2.2).head = b.head ∧
    ((ringbuf_read b n0).2.2).overflow = b.overflow ∧
    (((ringbuf_read b n0).2.2).tail = b.tail ∨
      ((ringbuf_read b n0).2.2).tail ≤ b.mask) := by
  by_cases h1 : b.len ≤ n0
  · rw [ringbuf_read_reject b n0 h1]
    exact ⟨rfl, rfl, rfl, rfl, Or.inl rfl⟩
  · by_cases hw : b.tail +
        (if rb_getused_m b < n0 then rb_getused_m b else n0) < b.len
    · rw [ringbuf_read_nowrap b n0 _ rfl (by omega) hw]
      exact ⟨rfl, rfl, rfl, rfl, Or.inr Nat.and_le_right⟩
    · rw [ringbuf_read_wrap b n0 _ rfl (by omega) hw]
      exact ⟨rfl, rfl, rfl, rfl, Or.inr Nat.and_le_right⟩

theorem reachable_indices (len : Nat) (b : RingBuffer) (hl : 0 < len)
    (h : Reachable len b) :
    b.len = len ∧ b.mask = len - 1 ∧ b.head < len ∧ b.tail < len := by
  induction h with
  | init => exact ⟨rfl, rfl, hl, hl⟩
  | step b op _ ih =>
    obtain ⟨hlen, hmask, hh, ht⟩ := ih
    cases op with
    | write data n =>
      simp only [applyOp]
      obtain ⟨f1, f2, f3, f4⟩ := ringbuf_write_fields b data n
      refine ⟨f1.trans hlen, f2.trans hmask, ?_, f3 ▸ ht⟩
      rcases f4 with h4 | h4
      · exact h4 ▸ hh
      · omega
    | read n =>
      simp only [applyOp]
      obtain ⟨f1, f2, f3, _, f5⟩ := ringbuf_read_fields b n
      refine ⟨f1.trans hlen, f2.trans hmask, f3 ▸ hh, ?_⟩
      rcases f5 with h5 | h5
      · exact h5 ▸ ht
      · omega
    | clearOverflow => exact ⟨hlen, hmask, hh, ht⟩

/-! ## C1 -/

/-- C1 (failing trace): a `ringbuf_write`/`ringbuf_read` sequence that
respects the capacity and free-space constraints yet loses bytes.  On a
capacity-4 buffer, write 1 byte, then 3 bytes — exactly the reported free
space, so the free-space check passes and both writes return success —
after which `head` has landed back on `tail` and a read returns no bytes:
the four written bytes are never readable, refuting byte-for-byte FIFO
delivery. -/
theorem fifo_trace_loses_bytes :
    (ringbuf_write (rbInit 4) [10] 1).1 = 0 ∧
    3 ≤ rb_getfree_m (ringbuf_write (rbInit 4) [10] 1).2 ∧
    (ringbuf_write (ringbuf_write (rbInit 4) [10] 1).2 [20, 30, 40] 3).1
      = 0 ∧
    (ringbuf_read
        (ringbuf_write (ringbuf_write (rbInit 4) [10] 1).2 [20, 30, 40] 3).2
        3).2.1 = [] := by decide

/-! ## C2 -/

/-- C2 (counterexample): in the reachable state after a read on the
freshly initialised capacity-8 buffer (`head = tail`), the program's
`rb_getused_m` and `rb_getfree_m` sum to the full capacity 8, not to
capacity − 1. -/
theorem used_add_free_ne_capacity_sub_one :
    Reachable 8 (applyOp (rbInit 8) (RBOp.read 3)) ∧
    rb_getused_m (applyOp (rbInit 8) (RBOp.read 3))
        + rb_getfree_m (applyOp (rbInit 8) (RBOp.read 3))
      ≠ (applyOp (rbInit 8) (RBOp.read 3)).len - 1 :=
  ⟨Reachable.step _ _ Reachable.init, by decide⟩

/-- C2 (amended): for every reachable ring-buffer state — so after every
sequence of write / read / overflow-reset operations —
`rb_getused_m + rb_getfree_m` equals the capacity itself. -/
theorem used_add_free_eq_capacity (len : Nat) (b : RingBuffer)
    (hl : 0 < len) (h : Reachable len b) :
    rb_getused_m b + rb_getfree_m b = b.len := by
  obtain ⟨hlen, _, hh, ht⟩ := reachable_indices len b hl h
  exact rb_used_add_free b (by omega) (by omega)

/-- Witness for the amended C2 at the initial capacity-8 state. -/
theorem used_add_free_eq_capacity_witness :
    rb_getused_m (rbInit 8) + rb_getfree_m (rbInit 8) = (rbInit 8).len :=
  used_add_free_eq_capacity 8 (rbInit 8) (by decide) Reachable.init

/-! ## C3 -/

/-- C3: for every state and every `n` with
`rb_getfree_m b < n ≤ capacity − 1`, `ringbuf_write` returns the failure
code 1, sets the sticky overflow flag, and changes nothing else — `head`,
`tail` and the buffer bytes stay as they were (no partial write). -/
theorem write_insufficient_space_sets_overflow (b : RingBuffer)
    (data : List Nat) (n : Nat) (h1 : rb_getfree_m b < n)
    (h2 : n ≤ b.len - 1) :
    ringbuf_write b data n = (1, { b with overflow := true }) :=
  ringbuf_write_full b data n (by omega) h1

/-- Witness for C3: capacity 4, occupancy 2 (free 2), write of 3 bytes. -/
theorem write_insufficient_space_sets_overflow_witness :
    ringbuf_write ⟨[0, 0, 0, 0], 2, 0, 4, 3, false⟩ [7, 8, 9] 3
      = (1, ⟨[0, 0, 0, 0], 2, 0, 4, 3, true⟩) :=
  write_insufficient_space_sets_overflow ⟨[0, 0, 0, 0], 2, 0, 4, 3, false⟩
    [7, 8, 9] 3 (by decide) (by decide)

/-! ## C4 -/

/-- C4: for every state and every `n ≥ capacity`, `ringbuf_write` returns
the failure code 1 and leaves the whole state — `head`, `tail`, the
overflow flag and the buffer contents — unchanged. -/
theorem write_oversize_rejected (b : RingBuffer) (data : List Nat)
    (n : Nat) (h : b.len ≤ n) : ringbuf_write b data n = (1, b) :=
  ringbuf_write_reject b data n h

/-- Witness for C4: a 5-byte write on a capacity-4 buffer. -/
theorem write_oversize_rejected_witness :
    ringbuf_write (rbInit 4) [1, 2, 3, 4, 5] 5 = (1, rbInit 4) :=
  write_oversize_rejected (rbInit 4) [1, 2, 3, 4, 5] 5 (by decide)

/-! ## C5 -/

/-- C5: for every in-range state and every `n` with
`occupancy < n < capacity`, `ringbuf_read` succeeds (code 0), copies out
exactly `rb_getused_m b` bytes, and advances `tail` by exactly that
amount modulo the capacity, touching nothing else. -/
theorem read_clamps_to_occupancy (b : RingBuffer) (hwf : rbWF b) (n : Nat)
    (h1 : rb_getused_m b < n) (h2 : n < b.len) :
    (ringbuf_read b n).1 = 0 ∧
    (ringbuf_read b n).2.1.length = rb_getused_m b ∧
    (ringbuf_read b n).2.2 =
      { b with tail := (b.tail + rb_getused_m b) % b.len } := by
  have hs := ringbuf_read_spec b hwf n h2
  rw [if_pos h1] at hs
  exact hs

/-- Witness for C5: capacity 4, occupancy 2, read request of 3 bytes. -/
theorem read_clamps_to_occupancy_witness :
    (ringbuf_read ⟨[1, 2, 3, 4], 2, 0, 4, 3, false⟩ 3).1 = 0 ∧
    (ringbuf_read ⟨[1, 2, 3, 4], 2, 0, 4, 3, false⟩ 3).2.1.length
      = rb_getused_m ⟨[1, 2, 3, 4], 2, 0, 4, 3, false⟩ ∧
    (ringbuf_read ⟨[1, 2, 3, 4], 2, 0, 4, 3, false⟩ 3).2.2 =
      { (⟨[1, 2, 3, 4], 2, 0, 4, 3, false⟩ : RingBuffer) with
          tail := (0 + rb_getused_m ⟨[1, 2, 3, 4], 2, 0, 4, 3, false⟩) % 4 } :=
  read_clamps_to_occupancy ⟨[1, 2, 3, 4], 2, 0, 4, 3, false⟩
    ⟨by decide, by decide, rfl, ⟨2, rfl⟩, rfl⟩ 3 (by decide) (by decide)

/-! ## C10 -/

theorem head_add_free_mod (b : RingBuffer) (hh : b.head < b.len)
    (ht : b.tail < b.len) (hne : b.head ≠ b.tail) :
    (b.head + rb_getfree_m b) % b.len = b.tail := by
  have he : ¬ b.tail = b.head := fun h => hne h.symm
  rcases Nat.lt_or_ge b.head b.tail with hlt | hge
  · have hf : rb_getfree_m b = b.tail - b.head := by
      unfold rb_getfree_m
      rw [if_neg he,
        show b.tail + b.len - b.head = (b.tail - b.head) + b.len by omega,
        Nat.add_mod_right, Nat.mod_eq_of_lt (by omega)]
    rw [hf, show b.head + (b.tail - b.head) = b.tail by omega,
      Nat.mod_eq_of_lt ht]
  · have hlt' : b.tail < b.head := by omega
    have hf : rb_getfree_m b = b.tail + b.len - b.head := by
      unfold rb_getfree_m
      rw [if_neg he, Nat.mod_eq_of_lt (by omega)]
    rw [hf, show b.head + (b.tail + b.len - b.head) = b.tail + b.len by omega,
      Nat.add_mod_right, Nat.mod_eq_of_lt ht]

theorem rb_free_lt_len (b : RingBuffer) (hl : 0 < b.len)
    (hne : b.head ≠ b.tail) : rb_getfree_m b < b.len := by
  have he : ¬ b.tail = b.head := fun h => hne h.symm
  unfold rb_getfree_m
  simp only [if_neg he]
  exact Nat.mod_lt _ hl

/-- Master lemma for a `ringbuf_write` that passes both checks: it
returns 0 and advances `head` by `n` modulo the capacity, leaving `tail`,
`len`, `mask` and `overflow` unchanged. -/
theorem ringbuf_write_success (b : RingBuffer) (data : List Nat) (n : Nat)
    (hm : b.mask = b.len - 1) (hp : ∃ k : Nat, b.len = 2 ^ k)
    (hh : b.head < b.len) (h1 : n < b.len) (h2 : ¬ rb_getfree_m b < n) :
    (ringbuf_write b data n).1 = 0 ∧
    (ringbuf_write b data n).2.head = (b.head + n) % b.len ∧
    (ringbuf_write b data n).2.tail = b.tail ∧
    (ringbuf_write b data n).2.len = b.len ∧
    (ringbuf_write b data n).2.mask = b.mask ∧
    (ringbuf_write b data n).2.overflow = b.overflow := by
  by_cases h3 : b.head + n < b.len
  · rw [ringbuf_write_nowrap b data n h1 h2 h3]
    refine ⟨rfl, ?_, rfl, rfl, rfl, rfl⟩
    rw [mask_and_eq_mod b hm hp]
  · rw [ringbuf_write_wrap b data n h1 h2 h3]
    refine ⟨rfl, ?_, rfl, rfl, rfl, rfl⟩
    have hz : (b.head + (b.len - b.head)) &&& b.mask = 0 := by
      rw [mask_and_eq_mod b hm hp,
        show b.head + (b.len - b.head) = b.len by omega, Nat.mod_self]
    rw [hz, mask_and_eq_mod b hm hp, Nat.zero_add,
      Nat.mod_eq_of_lt (by omega), Nat.mod_eq_sub_mod (by omega),
      Nat.mod_eq_of_lt (by omega)]
    show n - (b.len - b.head) = b.head + n - b.len
    omega

/-- C10: on any in-range state with `head ≠ tail`, writing exactly
`rb_getfree_m b` bytes is accepted (return code 0) yet drives `head` back
onto `tail`; the buffer then reports occupancy 0 and free space equal to
the full capacity, and its queued byte sequence is empty — the bytes just
written (and everything previously buffered) can never be returned by any
subsequent `ringbuf_read`. -/
theorem write_exact_free_erases_queue (b : RingBuffer) (hwf : rbWF b)
    (hne : b.head ≠ b.tail) (data : List Nat) :
    (ringbuf_write b data (rb_getfree_m b)).1 = 0 ∧
    (ringbuf_write b data (rb_getfree_m b)).2.head = b.tail ∧
    (ringbuf_write b data (rb_getfree_m b)).2.tail = b.tail ∧
    rb_getused_m (ringbuf_write b data (rb_getfree_m b)).2 = 0 ∧
    rb_getfree_m (ringbuf_write b data (rb_getfree_m b)).2
      = (ringbuf_write b data (rb_getfree_m b)).2.len ∧
    rb_contents (ringbuf_write b data (rb_getfree_m b)).2 = [] := by
  obtain ⟨hh, ht, hm, hp, hb⟩ := hwf
  have hfree : rb_getfree_m b < b.len := rb_free_lt_len b (by omega) hne
  obtain ⟨w0, wh, wt, wl, wm, wo⟩ :=
    ringbuf_write_success b data (rb_getfree_m b) hm hp hh hfree
      (lt_irrefl _)
  have hht : (ringbuf_write b data (rb_getfree_m b)).2.head = b.tail := by
    rw [wh, head_add_free_mod b hh ht hne]
  have heq : (ringbuf_write b data (rb_getfree_m b)).2.tail
      = (ringbuf_write b data (rb_getfree_m b)).2.head := by
    rw [wt, hht]
  have hu0 : rb_getused_m (ringbuf_write b data (rb_getfree_m b)).2 = 0 := by
    rw [rb_getused_m, if_pos heq]
  refine ⟨w0, hht, wt, hu0, ?_, ?_⟩
  · rw [rb_getfree_m, if_pos heq]
  · simp [rb_contents, hu0]

/-- Witness for C10: capacity 4, `head = 1`, `tail = 0`, free space 3;
the accepted 3-byte write empties the buffer. -/
theorem write_exact_free_erases_queue_witness :
    (ringbuf_write ⟨[0, 0, 0, 0], 1, 0, 4, 3, false⟩ [20, 30, 40]
        (rb_getfree_m ⟨[0, 0, 0, 0], 1, 0, 4, 3, false⟩)).1 = 0 ∧
    (ringbuf_write ⟨[0, 0, 0, 0], 1, 0, 4, 3, false⟩ [20, 30, 40]
        (rb_getfree_m ⟨[0, 0, 0, 0], 1, 0, 4, 3, false⟩)).2.head = 0 ∧
    (ringbuf_write ⟨[0, 0, 0, 0], 1, 0, 4, 3, false⟩ [20, 30, 40]
        (rb_getfree_m ⟨[0, 0, 0, 0], 1, 0, 4, 3, false⟩)).2.tail = 0 ∧
    rb_getused_m (ringbuf_write ⟨[0, 0, 0, 0], 1, 0, 4, 3, false⟩
        [20, 30, 40]
        (rb_getfree_m ⟨[0, 0, 0, 0], 1, 0, 4, 3, false⟩)).2 = 0 ∧
    rb_getfree_m (ringbuf_write ⟨[0, 0, 0, 0], 1, 0, 4, 3, false⟩
        [20, 30, 40]
        (rb_getfree_m ⟨[0, 0, 0, 0], 1, 0, 4, 3, false⟩)).2
      = (ringbuf_write ⟨[0, 0, 0, 0], 1, 0, 4, 3, false⟩ [20, 30, 40]
          (rb_getfree_m ⟨[0, 0, 0, 0], 1, 0, 4, 3, false⟩)).2.len ∧
    rb_contents (ringbuf_write ⟨[0, 0, 0, 0], 1, 0, 4, 3, false⟩
        [20, 30, 40]
        (rb_getfree_m ⟨[0, 0, 0, 0], 1, 0, 4, 3, false⟩)).2 = [] :=
  write_exact_free_erases_queue ⟨[0, 0, 0, 0], 1, 0, 4, 3, false⟩
    ⟨by decide, by decide, rfl, ⟨2, rfl⟩, rfl⟩ (by decide) [20, 30, 40]

/-! ## C6 -/

theorem ringbuf_write_overflow_eq (b : RingBuffer) (data : List Nat)
    (n : Nat) :
    ((ringbuf_write b data n).2).overflow
      = (b.overflow || decide (n < b.len ∧ rb_getfree_m b < n)) := by
  by_cases h1 : b.len ≤ n
  · rw [ringbuf_write_reject b data n h1]
    simp [show ¬ (n < b.len ∧ rb_getfree_m b < n) from
      fun hc => absurd hc.1 (by omega)]
  · by_cases h2 : rb_getfree_m b < n
    · rw [ringbuf_write_full b data n (by omega) h2]
      simp [show n < b.len ∧ rb_getfree_m b < n from ⟨by omega, h2⟩]
    · by_cases h3 : b.head + n < b.len
      · rw [ringbuf_write_nowrap b data n (by omega) h2 h3]
        simp [show ¬ (n < b.len ∧ rb_getfree_m b < n) from
          fun hc => h2 hc.2]
      · rw [ringbuf_write_wrap b data n (by omega) h2 h3]
        simp [show ¬ (n < b.len ∧ rb_getfree_m b < n) from
          fun hc => h2 hc.2]

/-- C6: the overflow-flag protocol over the buffer operations:
(i) after any operation the flag is set only if it was already set or the
operation was a `ringbuf_write` rejected for insufficient free space;
(ii) the flag becomes clear only if it was already clear or the operation
was the supervisor's explicit reset (the `sdbuf->overflow = 0` of the
open-on-start step); (iii) sticky: once set, any sequence of writes and
reads containing no reset leaves it set. -/
theorem overflow_flag_protocol :
    (∀ (b : RingBuffer) (op : RBOp),
        (applyOp b op).overflow = true →
          b.overflow = true ∨ ∃ data n, op = RBOp.write data n ∧
            n < b.len ∧ rb_getfree_m b < n) ∧
    (∀ (b : RingBuffer) (op : RBOp),
        (applyOp b op).overflow = false →
          b.overflow = false ∨ op = RBOp.clearOverflow) ∧
    (∀ (b : RingBuffer) (ops : List RBOp),
        (∀ op ∈ ops, op ≠ RBOp.clearOverflow) → b.overflow = true →
          (ops.foldl applyOp b).overflow = true) := by
  refine ⟨?_, ?_, ?_⟩
  · intro b op h
    cases op with
    | write data n =>
      simp only [applyOp] at h
      rw [ringbuf_write_overflow_eq] at h
      simp only [Bool.or_eq_true, decide_eq_true_eq] at h
      rcases h with h' | h'
      · exact Or.inl h'
      · exact Or.inr ⟨data, n, rfl, h'.1, h'.2⟩
    | read n =>
      simp only [applyOp] at h
      rw [(ringbuf_read_fields b n).2.2.2.1] at h
      exact Or.inl h
    | clearOverflow => simp [applyOp] at h
  · intro b op h
    cases op with
    | write data n =>
      simp only [applyOp] at h
      rw [ringbuf_write_overflow_eq] at h
      simp at h
      exact Or.inl h.1
    | read n =>
      simp only [applyOp] at h
      rw [(ringbuf_read_fields b n).2.2.2.1] at h
      exact Or.inl h
    | clearOverflow => exact Or.inr rfl
  · intro b ops
    induction ops generalizing b with
    | nil => exact fun _ h => h
    | cons op ops ih =>
      intro hno h
      rw [List.foldl_cons]
      apply ih (applyOp b op) (fun o ho => hno o (List.mem_cons_of_mem _ ho))
      cases op with
      | write data n =>
        simp only [applyOp]
        rw [ringbuf_write_overflow_eq, h, Bool.true_or]
      | read n =>
        simp only [applyOp]
        rw [(ringbuf_read_fields b n).2.2.2.1]
        exact h
      | clearOverflow =>
        exact absurd rfl (hno RBOp.clearOverflow (List.mem_cons_self _ _))

/-- Witness for C6, instantiating the stickiness part: a set overflow
flag survives a subsequent read. -/
theorem overflow_flag_protocol_witness :
    (List.foldl applyOp ⟨[0, 0, 0, 0], 1, 0, 4, 3, true⟩
        [RBOp.read 1]).overflow = true :=
  overflow_flag_protocol.2.2 ⟨[0, 0, 0, 0], 1, 0, 4, 3, true⟩ [RBOp.read 1]
    (by decide) rfl

/-! ## C7 -/

/-- C7 (counterexample): the open-on-start step on a state with
`head = 3`, `tail = 2` marks `file_open` and clears overflow, but the
indices are *not* zeroed. -/
theorem open_step_not_zero_indices :
    (openStep ⟨true, false, ⟨[0, 0, 0, 0], 3, 2, 4, 3, true⟩⟩).file_open
      = true ∧
    (openStep ⟨true, false, ⟨[0, 0, 0, 0], 3, 2, 4, 3, true⟩⟩).sdbuf.head
      = 3 ∧
    (openStep ⟨true, false, ⟨[0, 0, 0, 0], 3, 2, 4, 3, true⟩⟩).sdbuf.tail
      = 2 := by decide

/-- C7 (amended): when `logger_running` is set and `file_open` clear, the
open-on-start step clears the sticky overflow flag and then marks
`file_open`; `head`, `tail` and everything else are left untouched — the
indices are zeroed only once, by the initialisation at the top of
`sd_setup`. -/
theorem open_step_clears_overflow_only (s : LoggerState)
    (hr : s.logger_running = true) (hf : s.file_open = false) :
    openStep s = { s with sdbuf := { s.sdbuf with overflow := false },
                          file_open := true } := by
  simp [openStep, hr, hf]

/-- Witness for the amended C7. -/
theorem open_step_clears_overflow_only_witness :
    openStep ⟨true, false, ⟨[0, 0, 0, 0], 3, 2, 4, 3, true⟩⟩
      = ⟨true, true, ⟨[0, 0, 0, 0], 3, 2, 4, 3, false⟩⟩ :=
  open_step_clears_overflow_only
    ⟨true, false, ⟨[0, 0, 0, 0], 3, 2, 4, 3, true⟩⟩ rfl rfl

/-! ## C8 -/

theorem tail_add_used_mod (b : RingBuffer) (hh : b.head < b.len)
    (ht : b.tail < b.len) :
    (b.tail + rb_getused_m b) % b.len = b.head := by
  by_cases he : b.tail = b.head
  · rw [rb_getused_m, if_pos he, Nat.add_zero, Nat.mod_eq_of_lt ht]
    exact he
  · rcases Nat.lt_or_ge b.head b.tail with hlt | hge
    · have hu : rb_getused_m b = b.head + b.len - b.tail := by
        rw [rb_getused_m, if_neg he, Nat.mod_eq_of_lt (by omega)]
      rw [hu,
        show b.tail + (b.head + b.len - b.tail) = b.head + b.len by omega,
        Nat.add_mod_right, Nat.mod_eq_of_lt hh]
    · have hlt' : b.tail < b.head := by omega
      have hu : rb_getused_m b = b.head - b.tail := by
        rw [rb_getused_m, if_neg he,
          show b.head + b.len - b.tail = (b.head - b.tail) + b.len by omega,
          Nat.add_mod_right, Nat.mod_eq_of_lt (by omega)]
      rw [hu, show b.tail + (b.head - b.tail) = b.head by omega,
        Nat.mod_eq_of_lt hh]

/-- Reading exactly the current occupancy succeeds, copies out that many
bytes and drains the buffer: `tail` lands on `head`. -/
theorem ringbuf_read_used_spec (b : RingBuffer) (hwf : rbWF b) :
    (ringbuf_read b (rb_getused_m b)).1 = 0 ∧
    (ringbuf_read b (rb_getused_m b)).2.1.length = rb_getused_m b ∧
    (ringbuf_read b (rb_getused_m b)).2.2 = { b with tail := b.head } := by
  obtain ⟨hh, ht, hm, hp, hb⟩ := hwf
  have hu : rb_getused_m b < b.len := rb_used_lt_len b (by omega)
  have hs := ringbuf_read_spec b ⟨hh, ht, hm, hp, hb⟩ (rb_getused_m b) hu
  rw [if_neg (lt_irrefl _)] at hs
  obtain ⟨h0, hlen, hstate⟩ := hs
  refine ⟨h0, hlen, ?_⟩
  rw [hstate, tail_add_used_mod b hh ht]

/-- C8: when `logger_running` has gone false while `file_open` is set,
the close-on-stop step issues, in order, one storage write of exactly the
remaining `rb_getused_m` bytes (the final partial-block flush, draining
the buffer so that `tail` lands on `head`), then a sync, then close
attempts until one succeeds — the call trace ends with the successful
close — and `file_open` is false in the resulting state. -/
theorem close_step_drains_syncs_closes (s : LoggerState) (k : Nat)
    (hwf : rbWF s.sdbuf) (hr : s.logger_running = false)
    (hf : s.file_open = true) :
    (closeStep s k).2
      = SDEvent.fwrite (rb_getused_m s.sdbuf) :: SDEvent.fsync ::
          (List.replicate k (SDEvent.fclose false) ++
            [SDEvent.fclose true]) ∧
    (closeStep s k).1.file_open = false ∧
    (closeStep s k).1.sdbuf = { s.sdbuf with tail := s.sdbuf.head } ∧
    rb_getused_m (closeStep s k).1.sdbuf = 0 ∧
    (closeStep s k).1.logger_running = s.logger_running := by
  obtain ⟨h0, hlen, hstate⟩ := ringbuf_read_used_spec s.sdbuf hwf
  have hcs : closeStep s k
      = ({ s with
             sdbuf := (ringbuf_read s.sdbuf (rb_getused_m s.sdbuf)).2.2,
             file_open := false },
         SDEvent.fwrite (rb_getused_m s.sdbuf) :: SDEvent.fsync ::
           (List.replicate k (SDEvent.fclose false) ++
             [SDEvent.fclose true])) := by
    simp [closeStep, hr, hf]
  rw [hcs]
  refine ⟨rfl, rfl, hstate, ?_, rfl⟩
  show rb_getused_m (ringbuf_read s.sdbuf (rb_getused_m s.sdbuf)).2.2 = 0
  rw [hstate, rb_getused_m]
  simp

/-- Witness for C8: 2 buffered bytes remain, close fails twice before
succeeding. -/
theorem close_step_drains_syncs_closes_witness :
    (closeStep ⟨false, true, ⟨[1, 2, 3, 4], 2, 0, 4, 3, false⟩⟩ 2).2
      = SDEvent.fwrite (rb_getused_m ⟨[1, 2, 3, 4], 2, 0, 4, 3, false⟩) ::
          SDEvent.fsync ::
          (List.replicate 2 (SDEvent.fclose false) ++
            [SDEvent.fclose true]) ∧
    (closeStep ⟨false, true,
        ⟨[1, 2, 3, 4], 2, 0, 4, 3, false⟩⟩ 2).1.file_open = false ∧
    (closeStep ⟨false, true, ⟨[1, 2, 3, 4], 2, 0, 4, 3, false⟩⟩ 2).1.sdbuf
      = { (⟨[1, 2, 3, 4], 2, 0, 4, 3, false⟩ : RingBuffer) with
            tail := 2 } ∧
    rb_getused_m (closeStep ⟨false, true,
        ⟨[1, 2, 3, 4], 2, 0, 4, 3, false⟩⟩ 2).1.sdbuf = 0 ∧
    (closeStep ⟨false, true,
        ⟨[1, 2, 3, 4], 2, 0, 4, 3, false⟩⟩ 2).1.logger_running = false :=
  close_step_drains_syncs_closes
    ⟨false, true, ⟨[1, 2, 3, 4], 2, 0, 4, 3, false⟩⟩ 2
    ⟨by decide, by decide, rfl, ⟨2, rfl⟩, rfl⟩ rfl rfl

/-! ## C9 -/

theorem port1_isr_ignored (s : DebounceState) (t : Nat)
    (h : (t + 4294967296 - s.time) % 4294967296 ≤ 250) :
    port1_isr s t true = s := by
  rw [port1_isr, if_neg]
  intro hc
  omega

theorem port1_isr_accepted (s : DebounceState) (t : Nat)
    (h : 250 < (t + 4294967296 - s.time) % 4294967296) :
    port1_isr s t true = ⟨t, !s.running⟩ := by
  rw [port1_isr, if_pos ⟨rfl, h⟩]

/-- C9 (counterexample): a button edge arriving exactly 250 ticks after
the last accepted toggle — an elapsed interval *not below* the debounce
interval, which the claim says must flip `running` — is ignored by the
code, whose comparison is strict (`> 250`). -/
theorem debounce_at_exact_interval_ignored :
    ¬ ((250 + 4294967296 - (0 : Nat)) % 4294967296 < 250) ∧
    port1_isr ⟨0, false⟩ 250 true = ⟨0, false⟩ := by decide

/-- C9 (amended): a button edge is ignored when at most 250 ticks have
elapsed since the last accepted toggle, and accepted — flipping `running`
and recording the toggle time — only when strictly more than 250 ticks
have elapsed; consequently two edges occurring within less than the
debounce interval of each other produce exactly one state transition. -/
theorem debounce_threshold_and_single_transition :
    (∀ (s : DebounceState) (t : Nat),
        (t + 4294967296 - s.time) % 4294967296 ≤ 250 →
          port1_isr s t true = s) ∧
    (∀ (s : DebounceState) (t : Nat),
        250 < (t + 4294967296 - s.time) % 4294967296 →
          port1_isr s t true = ⟨t, !s.running⟩) ∧
    (∀ (s : DebounceState) (t1 t2 : Nat),
        250 < (t1 + 4294967296 - s.time) % 4294967296 →
        (t2 + 4294967296 - t1) % 4294967296 < 250 →
          port1_isr (port1_isr s t1 true) t2 true = ⟨t1, !s.running⟩) := by
  refine ⟨port1_isr_ignored, port1_isr_accepted, ?_⟩
  intro s t1 t2 h1 h2
  rw [port1_isr_accepted s t1 h1]
  exact port1_isr_ignored ⟨t1, !s.running⟩ t2 (Nat.le_of_lt h2)

/-- Witness for the amended C9: an accepted toggle at tick 300 followed
by an edge at tick 400 yields exactly one transition. -/
theorem debounce_threshold_witness :
    port1_isr (port1_isr ⟨0, false⟩ 300 true) 400 true = ⟨300, true⟩ :=
  debounce_threshold_and_single_transition.2.2 ⟨0, false⟩ 300 400
    (by decide) (by decide)
